import Mathlib

/-!
Verification of the codex-ts-sdk native bridge (`src/native/codex-napi`).

The development shallowly embeds the two Rust source files:
  * `src/cloud_tasks.rs` — credential resolution (`create_backend`), JWT
    account-id extraction (`extract_chatgpt_account_id`), base-URL
    normalization (`normalize_base_url`), git-remote URL parsing
    (`parse_owner_repo`), the environment aggregation/merge loop and its
    final sort (`cloud_tasks_list_environments`), and the task-summary
    field mapping (`to_task_summary_napi`).
  * `src/lib.rs` — the session bridge (pending event queue, `next_event`)
    and build-time version resolution (`resolved_version`).

Strings are modelled by their character lists (`String.data`); all string
helpers are written by structural recursion so concrete inputs evaluate
inside the kernel.  External collaborators (filesystem, auth manager,
HTTP backend, conversation stream) are modelled as explicit inputs.
-/

namespace CodexNapi

/-- Decidable equality for `Except`, used by the decidable models below. -/
instance {ε α : Type} [DecidableEq ε] [DecidableEq α] : DecidableEq (Except ε α) := fun x y =>
  match x, y with
  | .ok a, .ok b =>
    if h : a = b then isTrue (by rw [h]) else isFalse (by intro hh; cases hh; exact h rfl)
  | .error a, .error b =>
    if h : a = b then isTrue (by rw [h]) else isFalse (by intro hh; cases hh; exact h rfl)
  | .ok _, .error _ => isFalse (by intro hh; cases hh)
  | .error _, .ok _ => isFalse (by intro hh; cases hh)

/-! ## Generic character-list helpers (models of the Rust `str` operations) -/

/-- Model of Rust integer `cmp` on naturals. -/
def natCmp (m n : Nat) : Ordering :=
  if m < n then .lt else if n < m then .gt else .eq

/-- Model of Rust `bool` `Ord` (`false < true`). -/
def boolCmp (x y : Bool) : Ordering :=
  natCmp (cond x 1 0) (cond y 1 0)

/-- Lexicographic comparison of character lists by code point: the model of
Rust `str::cmp` (byte-wise UTF-8 order equals code-point order). -/
def lexCmp : List Char → List Char → Ordering
  | [], [] => .eq
  | [], _ :: _ => .lt
  | _ :: _, [] => .gt
  | a :: l1, b :: l2 =>
    match natCmp a.toNat b.toNat with
    | .eq => lexCmp l1 l2
    | o => o

/-- Model of Rust `str::split(sep)` for a one-character separator. -/
def splitCh (c : Char) : List Char → List (List Char)
  | [] => [[]]
  | x :: xs =>
    match splitCh c xs with
    | [] => [[]]
    | y :: ys => if x = c then [] :: y :: ys else (x :: y) :: ys

/-- Split at the first occurrence of a character, as `splitn(2, c)` followed by
reading both pieces: `none` when the character does not occur. -/
def splitFirst (c : Char) : List Char → Option (List Char × List Char)
  | [] => none
  | x :: xs =>
    if x = c then some ([], xs)
    else (splitFirst c xs).map (fun p => (x :: p.1, p.2))

/-- Model of Rust `str::contains(needle)`. -/
def containsL (needle : List Char) : List Char → Bool
  | [] => needle.isEmpty
  | c :: cs => needle.isPrefixOf (c :: cs) || containsL needle cs

/-- Model of Rust `str::find(needle)` returning the text after the first
occurrence of the needle (`none` when absent). -/
def findSubSplit (needle : List Char) : List Char → Option (List Char)
  | [] => if needle.isEmpty then some [] else none
  | c :: cs =>
    if needle.isPrefixOf (c :: cs) then some ((c :: cs).drop needle.length)
    else findSubSplit needle cs

/-- Model of Rust `char::is_whitespace`: the Unicode `White_Space` property,
which is exactly these twenty-five code points. -/
def rustIsWhitespace (c : Char) : Bool :=
  let n := c.toNat
  (9 ≤ n && n ≤ 13) || n = 32 || n = 133 || n = 160 || n = 5760 ||
    (8192 ≤ n && n ≤ 8202) || n = 8232 || n = 8233 || n = 8239 || n = 8287 || n = 12288

/-- Model of Rust `str::trim` (Unicode `White_Space` on both ends). -/
def trimChars (cs : List Char) : List Char :=
  ((cs.dropWhile rustIsWhitespace).reverse.dropWhile rustIsWhitespace).reverse

/-- Model of the `while base_url.ends_with('/') { base_url.pop(); }` loop. -/
def dropTrailingSlashes (cs : List Char) : List Char :=
  (cs.reverse.dropWhile (fun c => c = '/')).reverse

/-- One fuel-indexed step of Rust `str::trim_end_matches(".git")`, which
repeatedly removes the suffix; the fuel bounds the number of removals. -/
def stripDotGitAux : Nat → List Char → List Char
  | 0, cs => cs
  | n + 1, cs =>
    if ".git".data.isSuffixOf cs then stripDotGitAux n (cs.take (cs.length - 4))
    else cs

/-- Model of Rust `str::trim_end_matches(".git")`. -/
def stripDotGit (cs : List Char) : List Char :=
  stripDotGitAux cs.length cs

/-- First `some` element of a list of options (first-write-wins join). -/
def firstSomeL {α : Type} : List (Option α) → Option α
  | [] => none
  | some x :: _ => some x
  | none :: rest => firstSomeL rest

/-! ## Base64url decoding without padding

Model of the `base64` crate's `URL_SAFE_NO_PAD` engine with its default
configuration: the padding character is not in the alphabet, a remainder of
one sextet is invalid, and non-zero trailing bits are rejected. -/

/-- Value of one base64url alphabet character. -/
def b64UrlCharVal (c : Char) : Option Nat :=
  let n := c.toNat
  if 65 ≤ n ∧ n ≤ 90 then some (n - 65)
  else if 97 ≤ n ∧ n ≤ 122 then some (n - 97 + 26)
  else if 48 ≤ n ∧ n ≤ 57 then some (n - 48 + 52)
  else if c = '-' then some 62
  else if c = '_' then some 63
  else none

/-- Decode every character to its sextet value; any foreign character fails. -/
def b64Sextets : List Char → Option (List Nat)
  | [] => some []
  | c :: cs =>
    match b64UrlCharVal c, b64Sextets cs with
    | some v, some vs => some (v :: vs)
    | _, _ => none

/-- Pack sextets into bytes, processing groups of four; a trailing group of
two or three sextets must have zero trailing bits, a group of one is invalid. -/
def b64Bytes : List Nat → Option (List Nat)
  | [] => some []
  | [_] => none
  | [a, b] => if b % 16 = 0 then some [a * 4 + b / 16] else none
  | [a, b, c] =>
    if c % 4 = 0 then some [a * 4 + b / 16, (b % 16) * 16 + c / 4] else none
  | a :: b :: c :: d :: rest =>
    match b64Bytes rest with
    | some t =>
      some ((a * 4 + b / 16) :: ((b % 16) * 16 + c / 4) :: ((c % 4) * 64 + d) :: t)
    | none => none

/-- Model of `URL_SAFE_NO_PAD.decode`. -/
def base64urlDecode (cs : List Char) : Option (List Nat) :=
  (b64Sextets cs).bind b64Bytes

/-! ## Strict UTF-8 decoding (model of `str` validation inside `serde_json`) -/

/-- Strict UTF-8 decoder: rejects continuation errors, overlong encodings,
surrogates and code points above `U+10FFFF`. -/
def utf8Decode : List Nat → Option (List Char)
  | [] => some []
  | b1 :: t1 =>
    if b1 < 128 then (utf8Decode t1).map (fun cs => Char.ofNat b1 :: cs)
    else
      match t1 with
      | [] => none
      | b2 :: t2 =>
        if 194 ≤ b1 ∧ b1 ≤ 223 then
          if 128 ≤ b2 ∧ b2 ≤ 191 then
            (utf8Decode t2).map (fun cs => Char.ofNat ((b1 - 192) * 64 + (b2 - 128)) :: cs)
          else none
        else
          match t2 with
          | [] => none
          | b3 :: t3 =>
            if 224 ≤ b1 ∧ b1 ≤ 239 then
              if (if b1 = 224 then 160 ≤ b2 ∧ b2 ≤ 191
                  else if b1 = 237 then 128 ≤ b2 ∧ b2 ≤ 159
                  else 128 ≤ b2 ∧ b2 ≤ 191) ∧ 128 ≤ b3 ∧ b3 ≤ 191 then
                (utf8Decode t3).map
                  (fun cs => Char.ofNat ((b1 - 224) * 4096 + (b2 - 128) * 64 + (b3 - 128)) :: cs)
              else none
            else
              match t3 with
              | [] => none
              | b4 :: t4 =>
                if 240 ≤ b1 ∧ b1 ≤ 244 then
                  if (if b1 = 240 then 144 ≤ b2 ∧ b2 ≤ 191
                      else if b1 = 244 then 128 ≤ b2 ∧ b2 ≤ 143
                      else 128 ≤ b2 ∧ b2 ≤ 191) ∧
                     128 ≤ b3 ∧ b3 ≤ 191 ∧ 128 ≤ b4 ∧ b4 ≤ 191 then
                    (utf8Decode t4).map
                      (fun cs =>
                        Char.ofNat ((b1 - 240) * 262144 + (b2 - 128) * 4096 +
                          (b3 - 128) * 64 + (b4 - 128)) :: cs)
                  else none
                else none

/-! ## JSON values and parsing (model of `serde_json::from_slice::<Value>`) -/

/-- JSON values.  Numbers keep their raw token: the bridge only ever reads
string-valued claims, so a number's numeric value is never consulted. -/
inductive Json where
  | null
  | jbool (b : Bool)
  | num (raw : List Char)
  | str (s : List Char)
  | arr (elems : List Json)
  | obj (members : List (List Char × Json))

/-- JSON whitespace. -/
def jsonWs (c : Char) : Bool :=
  c = ' ' || c = '\t' || c = '\n' || c = '\r'

/-- Skip JSON whitespace. -/
def skipWs (cs : List Char) : List Char :=
  cs.dropWhile jsonWs

/-- Hexadecimal digit value. -/
def hexVal (c : Char) : Option Nat :=
  let n := c.toNat
  if 48 ≤ n ∧ n ≤ 57 then some (n - 48)
  else if 97 ≤ n ∧ n ≤ 102 then some (n - 97 + 10)
  else if 65 ≤ n ∧ n ≤ 70 then some (n - 65 + 10)
  else none

/-- Parse the body of a JSON string after the opening quote; returns the
decoded characters and the input after the closing quote.  Escapes follow
`serde_json`: the eight simple escapes and `\uXXXX` with mandatory surrogate
pairing; unescaped control characters are rejected. -/
def parseJStr : List Char → Option (List Char × List Char)
  | [] => none
  | c :: cs =>
    if c = '"' then some ([], cs)
    else if c = '\\' then
      match cs with
      | [] => none
      | e :: cs2 =>
        if e = '"' ∨ e = '\\' ∨ e = '/' then
          (parseJStr cs2).map (fun p => (e :: p.1, p.2))
        else if e = 'b' then (parseJStr cs2).map (fun p => (Char.ofNat 8 :: p.1, p.2))
        else if e = 'f' then (parseJStr cs2).map (fun p => (Char.ofNat 12 :: p.1, p.2))
        else if e = 'n' then (parseJStr cs2).map (fun p => (Char.ofNat 10 :: p.1, p.2))
        else if e = 'r' then (parseJStr cs2).map (fun p => (Char.ofNat 13 :: p.1, p.2))
        else if e = 't' then (parseJStr cs2).map (fun p => (Char.ofNat 9 :: p.1, p.2))
        else if e = 'u' then
          match cs2 with
          | h1 :: h2 :: h3 :: h4 :: cs3 =>
            match hexVal h1, hexVal h2, hexVal h3, hexVal h4 with
            | some v1, some v2, some v3, some v4 =>
              let n := v1 * 4096 + v2 * 256 + v3 * 16 + v4
              if 55296 ≤ n ∧ n ≤ 56319 then
                match cs3 with
                | e1 :: e2 :: g1 :: g2 :: g3 :: g4 :: cs4 =>
                  if e1 = '\\' ∧ e2 = 'u' then
                    match hexVal g1, hexVal g2, hexVal g3, hexVal g4 with
                    | some w1, some w2, some w3, some w4 =>
                      let m := w1 * 4096 + w2 * 256 + w3 * 16 + w4
                      if 56320 ≤ m ∧ m ≤ 57343 then
                        (parseJStr cs4).map
                          (fun p =>
                            (Char.ofNat (65536 + (n - 55296) * 1024 + (m - 56320)) :: p.1,
                              p.2))
                      else none
                    | _, _, _, _ => none
                  else none
                | _ => none
              else if 56320 ≤ n ∧ n ≤ 57343 then none
              else (parseJStr cs3).map (fun p => (Char.ofNat n :: p.1, p.2))
            | _, _, _, _ => none
          | _ => none
        else none
    else if c.toNat < 32 then none
    else (parseJStr cs).map (fun p => (c :: p.1, p.2))

/-- Decimal digit test. -/
def isDigitCh (c : Char) : Bool :=
  48 ≤ c.toNat && c.toNat ≤ 57

/-- Parse a JSON number token (grammar of RFC 8259, as `serde_json` enforces
it: no leading zeros, a fraction and exponent need at least one digit).
Returns the raw token and the rest of the input. -/
def parseNum (cs : List Char) : Option (List Char × List Char) :=
  let (sgn, r1) :=
    match cs with
    | c :: rest => if c = '-' then (['-'], rest) else (([] : List Char), cs)
    | [] => ([], cs)
  match r1 with
  | [] => none
  | d :: _ =>
    if ¬ isDigitCh d then none
    else
      let intPart := r1.takeWhile isDigitCh
      let r2 := r1.dropWhile isDigitCh
      if d = '0' ∧ intPart.length ≠ 1 then none
      else
        let (fracPart, r3) :=
          match r2 with
          | c :: rest =>
            if c = '.' then
              let ds := rest.takeWhile isDigitCh
              if ds.isEmpty then ((none : Option (List Char)), r2)
              else (some ('.' :: ds), rest.dropWhile isDigitCh)
            else (some [], r2)
          | [] => (some [], r2)
        match fracPart with
        | none => none
        | some fp =>
          let (expPart, r4) :=
            match r3 with
            | c :: rest =>
              if c = 'e' ∨ c = 'E' then
                let (es, rest2) :=
                  match rest with
                  | s :: rest2 =>
                    if s = '+' ∨ s = '-' then ([c, s], rest2) else ([c], rest)
                  | [] => ([c], rest)
                let ds := rest2.takeWhile isDigitCh
                if ds.isEmpty then ((none : Option (List Char)), r3)
                else (some (es ++ ds), rest2.dropWhile isDigitCh)
              else (some [], r3)
            | [] => (some [], r3)
          match expPart with
          | none => none
          | some ep => some (sgn ++ intPart ++ fp ++ ep, r4)

/-- Parse the elements of a JSON array after the first element's start,
using `pv` for values; fuel-indexed. -/
def parseElems (pv : List Char → Option (Json × List Char)) :
    Nat → List Char → Option (List Json × List Char)
  | 0, _ => none
  | n + 1, cs =>
    match pv cs with
    | none => none
    | some (v, r) =>
      match skipWs r with
      | c :: r2 =>
        if c = ',' then
          match parseElems pv n (skipWs r2) with
          | some (vs, r3) => some (v :: vs, r3)
          | none => none
        else if c = ']' then some ([v], r2)
        else none
      | [] => none

/-- Parse the members of a JSON object after the first member's start,
using `pv` for values; fuel-indexed. -/
def parseMembers (pv : List Char → Option (Json × List Char)) :
    Nat → List Char → Option (List (List Char × Json) × List Char)
  | 0, _ => none
  | n + 1, cs =>
    match cs with
    | c :: r0 =>
      if c = '"' then
        match parseJStr r0 with
        | none => none
        | some (key, r1) =>
          match skipWs r1 with
          | c2 :: r2 =>
            if c2 = ':' then
              match pv (skipWs r2) with
              | none => none
              | some (v, r3) =>
                match skipWs r3 with
                | c3 :: r4 =>
                  if c3 = ',' then
                    match parseMembers pv n (skipWs r4) with
                    | some (ms, r5) => some ((key, v) :: ms, r5)
                    | none => none
                  else if c3 = Char.ofNat 125 then some ([(key, v)], r4)
                  else none
                | [] => none
            else none
          | [] => none
      else none
    | [] => none

/-- Fuel-indexed JSON value parser. -/
def parseValue : Nat → List Char → Option (Json × List Char)
  | 0, _ => none
  | fuel + 1, cs =>
    match cs with
    | [] => none
    | c :: rest =>
      if c = 'n' then
        if rest.take 3 = ['u', 'l', 'l'] then some (.null, rest.drop 3) else none
      else if c = 't' then
        if rest.take 3 = ['r', 'u', 'e'] then some (.jbool true, rest.drop 3) else none
      else if c = 'f' then
        if rest.take 4 = ['a', 'l', 's', 'e'] then some (.jbool false, rest.drop 4) else none
      else if c = '"' then
        (parseJStr rest).map (fun p => (.str p.1, p.2))
      else if c = '[' then
        match skipWs rest with
        | c2 :: r2 =>
          if c2 = ']' then some (.arr [], r2)
          else
            match parseElems (parseValue fuel) fuel (skipWs rest) with
            | some (vs, r3) => some (.arr vs, r3)
            | none => none
        | [] => none
      else if c = Char.ofNat 123 then
        match skipWs rest with
        | c2 :: r2 =>
          if c2 = Char.ofNat 125 then some (.obj [], r2)
          else
            match parseMembers (parseValue fuel) fuel (skipWs rest) with
            | some (ms, r3) => some (.obj ms, r3)
            | none => none
        | [] => none
      else if c = '-' ∨ isDigitCh c then
        (parseNum cs).map (fun p => (.num p.1, p.2))
      else none

/-- Model of `serde_json::from_slice::<Value>` on already-decoded characters:
one value, surrounded by optional whitespace, consuming the whole input. -/
def parseJson (cs : List Char) : Option Json :=
  let cs1 := skipWs cs
  match parseValue (cs1.length + 1) cs1 with
  | some (v, rest) => if skipWs rest = [] then some v else none
  | none => none

/-- Member lookup on a JSON object: `serde_json`'s map keeps the last
occurrence of a duplicated key. -/
def objGet (members : List (List Char × Json)) (key : List Char) : Option Json :=
  members.foldl (fun acc m => if m.1 = key then some m.2 else acc) none

/-- Model of `serde_json::Value::get(key)`. -/
def jsonGet (j : Json) (key : List Char) : Option Json :=
  match j with
  | .obj members => objGet members key
  | _ => none

/-! ## `extract_chatgpt_account_id` (cloud_tasks.rs lines 344-357) -/

/-- The fixed outer claim key. -/
def authClaimKey : List Char := "https://api.openai.com/auth".data

/-- The fixed inner claim key. -/
def accountClaimKey : List Char := "chatgpt_account_id".data

/-- Decode a payload segment: base64url-decode without padding, parse as
JSON, and read the nested string claim. -/
def payloadClaim (p : List Char) : Option String :=
  match base64urlDecode p with
  | none => none
  | some bytes =>
    match (utf8Decode bytes).bind parseJson with
    | none => none
    | some v =>
      match (jsonGet v authClaimKey).bind (fun a => jsonGet a accountClaimKey) with
      | some (.str s) => some (String.mk s)
      | _ => none

/-- Translation of `extract_chatgpt_account_id`: the Rust code pulls the
first three items of `token.split('.')` and requires each of them to be
non-empty (later items, if any, are never examined). -/
def extract_chatgpt_account_id (token : String) : Option String :=
  match splitCh '.' token.data with
  | h :: p :: s :: _ =>
    if ¬ h.isEmpty ∧ ¬ p.isEmpty ∧ ¬ s.isEmpty then payloadClaim p else none
  | _ => none

/-- The amended decoding contract, written from the segment-count side: the
token must split into at least three dot-separated segments, the first three
of them non-empty; the second is decoded, segments past the third are
ignored. -/
def extractSpecModel (token : String) : Option String :=
  let parts := splitCh '.' token.data
  if 3 ≤ parts.length ∧ (parts.take 3).all (fun seg => !seg.isEmpty) then
    (parts.get? 1).bind payloadClaim
  else none

/-! ## `normalize_base_url` (cloud_tasks.rs lines 359-368) -/

/-- Translation of `normalize_base_url`: strip every trailing slash, then
append `/backend-api` when the string starts with one of the two hard-coded
chat-frontend prefixes and does not already contain `/backend-api`. -/
def normalize_base_url (input : String) : String :=
  let cs := dropTrailingSlashes input.data
  if ("https://chatgpt.com".data.isPrefixOf cs || "https://chat.openai.com".data.isPrefixOf cs)
      && !containsL "/backend-api".data cs then
    String.mk cs ++ "/backend-api"
  else String.mk cs

/-- Host of a URL as the claim reads it: the authority component after
`"://"`, up to the first `/`, `:`, `?` or `#`. -/
def hostOf (cs : List Char) : Option (List Char) :=
  (findSubSplit "://".data cs).map
    (fun rest => rest.takeWhile (fun c => ¬ (c = '/' ∨ c = ':' ∨ c = '?' ∨ c = '#')))

/-- Path of a URL as the claim reads it: the part of the text after `"://"`
starting at the first `/`. -/
def pathOf (cs : List Char) : Option (List Char) :=
  (findSubSplit "://".data cs).map (fun rest => rest.dropWhile (fun c => ¬ c = '/'))

/-- The claimed normalization: append `/backend-api` exactly when the URL's
host is one of the two chat-frontend domains and its path does not already
contain the segment. -/
def claimNormalize (input : String) : String :=
  let cs := dropTrailingSlashes input.data
  if (hostOf cs = some "chatgpt.com".data ∨ hostOf cs = some "chat.openai.com".data)
      ∧ ¬ (containsL "/backend-api".data ((pathOf cs).getD []) = true) then
    String.mk cs ++ "/backend-api"
  else String.mk cs

/-! ## `parse_owner_repo` (cloud_tasks.rs lines 476-493) -/

/-- Common tail of every supported shape: drop leading slashes, strip the
repeated `.git` suffix, split owner from repository at the first slash. -/
def ownerRepoFrom (rest : List Char) : Option (String × String) :=
  let r := stripDotGit (rest.dropWhile (fun c => c = '/'))
  match splitFirst '/' r with
  | some (o, rep) => some (String.mk o, String.mk rep)
  | none => none

/-- The four prefixed shapes, in the order the Rust loop tries them. -/
def ghPrefixes : List (List Char) :=
  ["https://github.com/".data, "http://github.com/".data,
    "git://github.com/".data, "github.com/".data]

/-- Translation of the Rust `for prefix in [...]` loop. -/
def parsePrefixLoop : List (List Char) → List Char → Option (String × String)
  | [], _ => none
  | p :: ps, s =>
    if p.isPrefixOf s then ownerRepoFrom (s.drop p.length)
    else parsePrefixLoop ps s

/-- Translation of `parse_owner_repo`: trim, strip an `ssh://` prefix,
then either the `@github.com:` shorthand or one of the four prefixes. -/
def parse_owner_repo (url : String) : Option (String × String) :=
  let s0 := trimChars url.data
  let s := if "ssh://".data.isPrefixOf s0 then s0.drop 6 else s0
  match findSubSplit "@github.com:".data s with
  | some rest => ownerRepoFrom rest
  | none => parsePrefixLoop ghPrefixes s

/-- One shape rule: maps the URL text to the text after the matched shape
marker, `none` when the shape does not apply. -/
def shapeRules : List (List Char → Option (List Char)) :=
  [fun s => findSubSplit "@github.com:".data s,
    fun s => if "https://github.com/".data.isPrefixOf s then some (s.drop 19) else none,
    fun s => if "http://github.com/".data.isPrefixOf s then some (s.drop 18) else none,
    fun s => if "git://github.com/".data.isPrefixOf s then some (s.drop 17) else none,
    fun s => if "github.com/".data.isPrefixOf s then some (s.drop 11) else none]

/-- Try shape rules in order; the first applicable rule decides. -/
def firstRuleHit : List (List Char → Option (List Char)) → List Char → Option (String × String)
  | [], _ => none
  | r :: rs, s =>
    match r s with
    | some rest => ownerRepoFrom rest
    | none => firstRuleHit rs s

/-- The shapes enumerated by the claim, applied to trimmed text: SSH
shorthand `user@github.com:owner/repo` and the four prefixed forms — with no
provision for an `ssh://` scheme prefix. -/
def claimOwnerRepo (url : String) : Option (String × String) :=
  firstRuleHit shapeRules (trimChars url.data)

/-! ## Credential resolution: `create_backend` (cloud_tasks.rs lines 257-342) -/

/-- The per-call configuration (`CloudTasksConfig`). -/
structure CloudTasksConfig where
  base_url : String
  bearer_token : Option String
  chatgpt_account_id : Option String
  user_agent : Option String
  mock : Option Bool
  codex_home : Option String
deriving DecidableEq

/-- The token record inside a persisted `auth.json` (collaborator contract:
a token and an optional account id). -/
structure TokensData where
  access_token : String
  account_id : Option String
deriving DecidableEq

/-- A persisted `auth.json` as `try_read_auth_json` yields it. -/
structure AuthDotJson where
  tokens : Option TokensData
deriving DecidableEq

/-- What the fallback `AuthManager` offers for a home directory: the result
of `get_token()` and the result of `get_account_id()`. -/
structure ManagerAuth where
  token_result : Except String String
  account_id : Option String
deriving DecidableEq

/-- The external world consulted by `create_backend`: home-directory
discovery, the filesystem metadata probe, the persisted auth record, and the
fallback auth manager (all keyed by the home directory). -/
structure AuthWorld where
  find_codex_home : Except String String
  metadata_ok : String → Bool
  auth_json : String → Option AuthDotJson
  manager_auth : String → Option ManagerAuth

/-- Credential-bearing state of the `HttpClient` builder. -/
structure ClientState where
  bearer : Option String
  account : Option String
  user_agent : Option String
deriving DecidableEq

/-- Result of `create_backend`: the mock backend, or an HTTP client together
with a flag recording whether the fallback auth manager was consulted. -/
inductive BackendModel where
  | mockBackend
  | httpBackend (client : ClientState) (managerConsulted : Bool)
deriving DecidableEq

/-- `with_user_agent`, applied last. -/
def withUA (c : ClientState) (cfg : CloudTasksConfig) : ClientState :=
  match cfg.user_agent with
  | some ua => { c with user_agent := some ua }
  | none => c

/-- Translation of `create_backend`.  The `HttpClient::new` constructor is
modelled as always succeeding; debug logging has no effect on the result and
is omitted.  Note the translation's shape: a successful `auth.json` read
does not return — the code always falls through to the `AuthManager`
block whenever the home directory's metadata probe succeeds. -/
def create_backend (cfg : CloudTasksConfig) (w : AuthWorld) : Except String BackendModel :=
  if cfg.mock.getD false then .ok .mockBackend
  else
    let c0 : ClientState := { bearer := none, account := none, user_agent := none }
    match cfg.bearer_token with
    | some token =>
      let c1 := { c0 with bearer := some token }
      let c2 :=
        match cfg.chatgpt_account_id with
        | some i => { c1 with account := some i }
        | none => c1
      .ok (.httpBackend (withUA c2 cfg) false)
    | none =>
      let c1 :=
        match cfg.chatgpt_account_id with
        | some i => { c0 with account := some i }
        | none => c0
      match (match cfg.codex_home with
             | some h => Except.ok h
             | none => w.find_codex_home) with
      | .error e => .error e
      | .ok home =>
        if w.metadata_ok home then
          let c2 :=
            match w.auth_json home with
            | some auth =>
              let token := (auth.tokens.map (fun t => t.access_token)).getD ""
              if token ≠ "" then
                let cb := { c1 with bearer := some token }
                match Option.or (auth.tokens.bind (fun t => t.account_id))
                    (extract_chatgpt_account_id token) with
                | some acc => { cb with account := some acc }
                | none => cb
              else c1
            | none => c1
          match w.manager_auth home with
          | some auth =>
            let st :=
              match auth.token_result with
              | .ok tok =>
                if tok ≠ "" then ({ c2 with bearer := some tok }, some tok)
                else (c2, (none : Option String))
              | .error _ => (c2, none)
            let c4 :=
              match Option.or auth.account_id
                  (st.2.bind (fun t => extract_chatgpt_account_id t)) with
              | some acc => { st.1 with account := some acc }
              | none => st.1
            .ok (.httpBackend (withUA c4 cfg) true)
          | none => .ok (.httpBackend (withUA c2 cfg) true)
        else .ok (.httpBackend (withUA c1 cfg) false)

/-! ## Environment aggregation (cloud_tasks.rs lines 127-189) -/

/-- The wire row (`EnvironmentRowNapi`). -/
structure EnvironmentRowNapi where
  id : String
  label : Option String
  is_pinned : Option Bool
  repo_hints : Option String
deriving DecidableEq

/-- A row as a discovery source reports it (`CodeEnvironment`). -/
structure CodeEnvironment where
  id : String
  label : Option String
  is_pinned : Option Bool
deriving DecidableEq

/-- Which query produced a row: a per-repository query carrying its
`owner/repo` hint, or the global (unqualified) query. -/
inductive MergeSource where
  | perRepo (hint : String)
  | globalQuery
deriving DecidableEq

/-- One row arriving at the accumulator. -/
structure MergeOp where
  src : MergeSource
  env : CodeEnvironment
deriving DecidableEq

/-- The repo hint a source would write on first insertion. -/
def hintOf : MergeSource → Option String
  | .perRepo h => some h
  | .globalQuery => none

/-- The row `or_insert` builds when the id is new. -/
def freshRow (op : MergeOp) : EnvironmentRowNapi :=
  { id := op.env.id, label := op.env.label, is_pinned := op.env.is_pinned,
    repo_hints := hintOf op.src }

/-- The two update statements run on the map entry for every incoming row:
fill the label only when absent; OR the pinned flag when the source reports
one. -/
def updRow (r : EnvironmentRowNapi) (e : CodeEnvironment) : EnvironmentRowNapi :=
  let r1 := if r.label = none then { r with label := e.label } else r
  match e.is_pinned with
  | some pin => { r1 with is_pinned := some (r1.is_pinned.getD false || pin) }
  | none => r1

/-- First-match association lookup (the accumulator keeps unique keys). -/
def lookupFirst (m : List (String × EnvironmentRowNapi)) (k : String) : Option EnvironmentRowNapi :=
  match m with
  | [] => none
  | (k', v) :: rest => if k' = k then some v else lookupFirst rest k

/-- One `map.entry(id).or_insert(...)` step followed by the two updates. -/
def applyOp (m : List (String × EnvironmentRowNapi)) (op : MergeOp) :
    List (String × EnvironmentRowNapi) :=
  match lookupFirst m op.env.id with
  | none => (op.env.id, updRow (freshRow op) op.env) :: m
  | some _ => m.map (fun p => if p.1 = op.env.id then (p.1, updRow p.2 op.env) else p)

/-- The accumulator after a sequence of merged rows. -/
def runMerge (ops : List MergeOp) : List (String × EnvironmentRowNapi) :=
  ops.foldl applyOp []

/-- The operations concerning one id, in arrival order. -/
def opsFor (ops : List MergeOp) (i : String) : List MergeOp :=
  ops.filter (fun op => op.env.id == i)

/-- Net effect of one operation on the (optional) accumulated row of its id. -/
def stepRow (cur : Option EnvironmentRowNapi) (op : MergeOp) : EnvironmentRowNapi :=
  updRow (cur.getD (freshRow op)) op.env

/-- Pinned-flag join: a reported flag ORs into the accumulated one, an
absent report leaves it untouched. -/
def pinStep (acc : Option Bool) (p : Option Bool) : Option Bool :=
  match p with
  | some pin => some (acc.getD false || pin)
  | none => acc

/-- The pinned flag predicted for an id from its operations alone. -/
def pinSpec (l : List MergeOp) : Option Bool :=
  (l.map (fun op => op.env.is_pinned)).foldl pinStep none

/-- Accumulated label of an id. -/
def labelAt (m : List (String × EnvironmentRowNapi)) (i : String) : Option String :=
  (lookupFirst m i).bind (fun r => r.label)

/-- Accumulated pinned flag of an id. -/
def pinnedAt (m : List (String × EnvironmentRowNapi)) (i : String) : Option Bool :=
  (lookupFirst m i).bind (fun r => r.is_pinned)

/-- Accumulated repo hint of an id. -/
def hintAt (m : List (String × EnvironmentRowNapi)) (i : String) : Option String :=
  (lookupFirst m i).bind (fun r => r.repo_hints)

/-! ## The final environment sort (cloud_tasks.rs lines 174-187) -/

/-- Lower-cased text of an optional label, absent treated as empty:
the model of `label.as_deref().unwrap_or("").to_lowercase()`.  The external
library function `str::to_lowercase` (the full Unicode lowercase mapping) is
kept abstract as the parameter `low`; every theorem below holds for every
such mapping. -/
def lowerLabel (low : String → List Char) (l : Option String) : List Char :=
  low (l.getD "")

/-- Translation of the sort comparator: pinned descending, then label
case-insensitively ascending, then id ascending; parameterized by the
lowercase mapping `low` modelling `str::to_lowercase`. -/
def cmpRow (low : String → List Char) (a b : EnvironmentRowNapi) : Ordering :=
  let pa := a.is_pinned.getD false
  let pb := b.is_pinned.getD false
  match boolCmp pb pa with
  | .eq =>
    match lexCmp (lowerLabel low a.label) (lowerLabel low b.label) with
    | .eq => lexCmp a.id.data b.id.data
    | o => o
  | .lt => .lt
  | .gt => .gt

/-- The non-strict order induced by the comparator. -/
def RowLe (low : String → List Char) (a b : EnvironmentRowNapi) : Prop :=
  cmpRow low a b ≠ .gt

instance (low : String → List Char) : DecidableRel (RowLe low) := fun a b => by
  unfold RowLe
  infer_instance

/-- The sorted output of `cloud_tasks_list_environments` for given
accumulator rows.  Rust's stable `sort_by` is modelled by the stable
insertion sort; `low` is the lowercase mapping of the comparator. -/
def sortRows (low : String → List Char) (rows : List EnvironmentRowNapi) :
    List EnvironmentRowNapi :=
  List.insertionSort (RowLe low) rows

/-! ## Session bridge (lib.rs lines 11-83, 112-146) -/

/-- Conversation event messages: the synthetic session-configured message
and all others, whose content the bridge never interprets. -/
inductive EventMsg where
  | sessionConfigured (payload : String)
  | other (tag : String)
deriving DecidableEq

/-- A conversation `Event`. -/
structure Event where
  id : String
  msg : EventMsg
deriving DecidableEq

/-- Failures of the underlying conversation stream: the clean-closure
sentinel, or any other error carrying a message (collaborator contract). -/
inductive CodexErr where
  | streamClosed
  | otherErr (msg : String)
deriving DecidableEq

/-- Rendered message of a stream failure (`err.to_string()`); the sentinel
renders as `"StreamClosed"`. -/
def errToString : CodexErr → String
  | .streamClosed => "StreamClosed"
  | .otherErr m => m

/-- Bridge-visible session state: the pending queue and the not yet
consumed items of the underlying conversation stream. -/
structure SessionState where
  pending : List Event
  stream : List (Except CodexErr Event)
deriving DecidableEq

/-- Translation of `create_conversation`'s session construction: the queue
is seeded with exactly one synthetic session-configured event built from the
manager's payload (`Event { id: String::new(), msg: SessionConfigured(..) }`). -/
def createSession (payload : String) (stream : List (Except CodexErr Event)) : SessionState :=
  { pending := [{ id := "", msg := .sessionConfigured payload }], stream := stream }

/-- Translation of `CodexSession::next_event`, parameterized by the event
serializer (`serialize_event`).  `none` models the call suspending forever
on an exhausted stream; otherwise the call's result and the next state are
returned.  A stream failure whose rendered message contains `"StreamClosed"`
becomes the distinguished no-more-events result `Except.ok none`. -/
def nextEvent (ser : Event → Except String String) (st : SessionState) :
    Option (Except String (Option String) × SessionState) :=
  match st.pending with
  | e :: rest => some ((ser e).map some, { st with pending := rest })
  | [] =>
    match st.stream with
    | [] => none
    | item :: rest =>
      match item with
      | .ok ev => some ((ser ev).map some, { pending := [], stream := rest })
      | .error err =>
        if containsL "StreamClosed".data (errToString err).data then
          some (.ok none, { pending := [], stream := rest })
        else
          some (.error (errToString err), { pending := [], stream := rest })

/-- A concrete serializer used to instantiate closed statements (the wire
encoding itself is owned by the conversation engine). -/
def serDefault : Event → Except String String
  | e =>
    match e.msg with
    | .sessionConfigured p => .ok ("configured:" ++ p)
    | .other t => .ok ("event:" ++ t)

/-! ## Version resolution (lib.rs lines 170-183, build.rs) -/

/-- Translation of `resolved_version`, parameterized by the two build-time
environment captures (`option_env!`). -/
def resolved_version (cliEnv rsEnv : Option String) : String :=
  (Option.or cliEnv rsEnv).getD "0.0.0"

/-- Translation of the exported `version()`. -/
def version (cliEnv rsEnv : Option String) : String :=
  resolved_version cliEnv rsEnv

/-- Translation of the exported `cli_version()`. -/
def cli_version (cliEnv rsEnv : Option String) : String :=
  resolved_version cliEnv rsEnv

/-! ## Task-summary field mapping (cloud_tasks.rs lines 499-527, 117-124) -/

/-- Task status values. -/
inductive TaskStatus where
  | pending
  | ready
  | applied
  | errorStatus
deriving DecidableEq

/-- Diff summary as the backend reports it (`usize` fields). -/
structure DiffSummary where
  files_changed : Nat
  lines_added : Nat
  lines_removed : Nat
deriving DecidableEq

/-- A backend task summary (collaborator contract); the timestamp is
modelled by its RFC 3339 rendering. -/
structure TaskSummary where
  id : String
  title : String
  status : TaskStatus
  updated_at_rfc3339 : String
  environment_id : Option String
  environment_label : Option String
  summary : DiffSummary
  is_review : Bool
  attempt_total : Option Nat
deriving DecidableEq

/-- Wire diff summary (`u32` fields, modelled as naturals below `2^32`). -/
structure DiffSummaryNapi where
  files_changed : Nat
  lines_added : Nat
  lines_removed : Nat
deriving DecidableEq

/-- A pull request record on the wire (only ever absent in this mapping). -/
structure PullRequestNapi where
  number : Option Nat
  url : Option String
  state : Option String
  merged : Option Bool
  title : Option String
deriving DecidableEq

/-- The wire task summary (`TaskSummaryNapi`). -/
structure TaskSummaryNapi where
  id : String
  title : String
  status : String
  updated_at : String
  created_at : Option String
  has_generated_title : Option Bool
  environment_id : Option String
  environment_label : Option String
  summary : DiffSummaryNapi
  is_review : Bool
  attempt_total : Option Nat
  archived : Option Bool
  has_unread_turn : Option Bool
  branch_name : Option String
  turn_id : Option String
  turn_status : Option String
  sibling_turn_ids : Option (List String)
  intent : Option String
  initial_intent : Option String
  fix_task_id : Option String
  pull_requests : Option (List PullRequestNapi)
deriving DecidableEq

/-- Translation of `status_to_string`. -/
def status_to_string : TaskStatus → String
  | .pending => "pending"
  | .ready => "ready"
  | .applied => "applied"
  | .errorStatus => "error"

/-- Translation of `to_task_summary_napi`; the `as u32` casts truncate
modulo `2^32`. -/
def to_task_summary_napi (t : TaskSummary) : TaskSummaryNapi :=
  { id := t.id
    title := t.title
    status := status_to_string t.status
    updated_at := t.updated_at_rfc3339
    created_at := none
    has_generated_title := none
    environment_id := t.environment_id
    environment_label := t.environment_label
    summary :=
      { files_changed := t.summary.files_changed % 4294967296
        lines_added := t.summary.lines_added % 4294967296
        lines_removed := t.summary.lines_removed % 4294967296 }
    is_review := t.is_review
    attempt_total := t.attempt_total.map (fun v => v % 4294967296)
    archived := none
    has_unread_turn := none
    branch_name := none
    turn_id := none
    turn_status := none
    sibling_turn_ids := none
    intent := none
    initial_intent := none
    fix_task_id := none
    pull_requests := none }

/-- Translation of `cloud_tasks_list`'s mapping step: the backend's task
list (or failure) mapped row-wise through `to_task_summary_napi`. -/
def cloud_tasks_list_model (backendTasks : Except String (List TaskSummary)) :
    Except String (List TaskSummaryNapi) :=
  backendTasks.map (fun ts => ts.map to_task_summary_napi)

/-! ## Fixtures for closed statements -/

/-- Ordering chain: later comparisons decide only when earlier ones tie. -/
def chain3 (o1 o2 o3 : Ordering) : Ordering :=
  match o1 with
  | .eq =>
    match o2 with
    | .eq => o3
    | o => o
  | o => o

/-- Net row-level effect of a run of update steps on an existing row. -/
def rowFold (r : EnvironmentRowNapi) (l : List MergeOp) : EnvironmentRowNapi :=
  l.foldl (fun r op => updRow r op.env) r

/-- Example row `a` from the spec's sort test. -/
def exRowA : EnvironmentRowNapi :=
  { id := "a", label := some "alpha", is_pinned := some true, repo_hints := none }

/-- Example row `b` from the spec's sort test. -/
def exRowB : EnvironmentRowNapi :=
  { id := "b", label := some "Zed", is_pinned := some false, repo_hints := none }

/-- Example row `c` from the spec's sort test. -/
def exRowC : EnvironmentRowNapi :=
  { id := "c", label := some "Alpha", is_pinned := some false, repo_hints := none }

/-- A token with four dot-separated segments whose second segment decodes to
a JSON payload carrying the account claim `"acc"`. -/
def tok4 : String :=
  "h.eyJodHRwczovL2FwaS5vcGVuYWkuY29tL2F1dGgiOnsiY2hhdGdwdF9hY2NvdW50X2lkIjoiYWNjIn19.s.x"

/-- Configuration with no explicit bearer token and an explicit home. -/
def cfgC1 : CloudTasksConfig :=
  { base_url := "https://chatgpt.com", bearer_token := none, chatgpt_account_id := none,
    user_agent := none, mock := none, codex_home := some "home" }

/-- World where the persisted record and the fallback manager both hold
distinct non-empty tokens. -/
def wC1 : AuthWorld :=
  { find_codex_home := .error "unused"
    metadata_ok := fun _ => true
    auth_json := fun _ =>
      some { tokens := some { access_token := "file-token", account_id := some "file-acc" } }
    manager_auth := fun _ =>
      some { token_result := .ok "mgr-token", account_id := some "mgr-acc" } }

/-- World with a persisted record but no usable fallback manager. -/
def wC1b : AuthWorld :=
  { find_codex_home := .error "unused"
    metadata_ok := fun _ => true
    auth_json := fun _ =>
      some { tokens := some { access_token := "file-token", account_id := some "file-acc" } }
    manager_auth := fun _ => none }

/-- Configuration carrying an explicit bearer token and account id. -/
def cfgC1a : CloudTasksConfig :=
  { base_url := "https://chatgpt.com", bearer_token := some "explicit-token",
    chatgpt_account_id := some "explicit-acc", user_agent := none, mock := none,
    codex_home := some "home" }

/-- A global-query row and a per-repository row for the same id. -/
def opsW : List MergeOp :=
  [{ src := .globalQuery, env := { id := "e", label := none, is_pinned := some false } },
    { src := .perRepo "o/r", env := { id := "e", label := some "L", is_pinned := some true } }]

/-- A sample instantiation of the lowercase mapping used by closed
statements: it agrees with `str::to_lowercase` on ASCII text (the only text
the fixtures use). -/
def asciiToLowerData (s : String) : List Char :=
  s.data.map Char.toLower

/-- The fallback manager yields no usable token: it is absent, or its token
read returns the empty string, or it fails. -/
def managerTokenUnusable (m : Option ManagerAuth) : Prop :=
  m = none ∨ ∃ ma, m = some ma ∧
    (ma.token_result = Except.ok "" ∨ ∃ e, ma.token_result = Except.error e)

/-! # Theorems -/

/-- Claim C9: the exported `version()` and `cli_version()` always return the
same string, namely the build-time CLI version if set, else the build-time
RS version if set, else `"0.0.0"`. -/
theorem version_functions_agree (c r : Option String) (v : String) :
    version c r = cli_version c r
      ∧ version (some v) r = v
      ∧ version none (some v) = v
      ∧ version none none = "0.0.0" :=
  ⟨rfl, rfl, rfl, rfl⟩

/-- Claim C10: `to_task_summary_napi` leaves `created_at`,
`has_generated_title`, `archived`, `has_unread_turn`, `branch_name`,
`turn_id`, `turn_status`, `sibling_turn_ids`, `intent`, `initial_intent`,
`fix_task_id` and `pull_requests` unset for every backend task, while id,
title, status, timestamp, environment id/label, diff summary, review flag
and attempt total carry the backend data; `cloud_tasks_list` maps every
backend row through this translation. -/
theorem task_summary_frame (t : TaskSummary) :
    (to_task_summary_napi t).created_at = none
      ∧ (to_task_summary_napi t).has_generated_title = none
      ∧ (to_task_summary_napi t).archived = none
      ∧ (to_task_summary_napi t).has_unread_turn = none
      ∧ (to_task_summary_napi t).branch_name = none
      ∧ (to_task_summary_napi t).turn_id = none
      ∧ (to_task_summary_napi t).turn_status = none
      ∧ (to_task_summary_napi t).sibling_turn_ids = none
      ∧ (to_task_summary_napi t).intent = none
      ∧ (to_task_summary_napi t).initial_intent = none
      ∧ (to_task_summary_napi t).fix_task_id = none
      ∧ (to_task_summary_napi t).pull_requests = none
      ∧ (to_task_summary_napi t).id = t.id
      ∧ (to_task_summary_napi t).title = t.title
      ∧ (to_task_summary_napi t).status = status_to_string t.status
      ∧ (to_task_summary_napi t).updated_at = t.updated_at_rfc3339
      ∧ (to_task_summary_napi t).environment_id = t.environment_id
      ∧ (to_task_summary_napi t).environment_label = t.environment_label
      ∧ (to_task_summary_napi t).summary =
          { files_changed := t.summary.files_changed % 4294967296
            lines_added := t.summary.lines_added % 4294967296
            lines_removed := t.summary.lines_removed % 4294967296 }
      ∧ (to_task_summary_napi t).is_review = t.is_review
      ∧ (to_task_summary_napi t).attempt_total = t.attempt_total.map (fun v => v % 4294967296)
      ∧ (∀ ts, cloud_tasks_list_model (.ok ts) = .ok (ts.map to_task_summary_napi)) :=
  ⟨rfl, rfl, rfl, rfl, rfl, rfl, rfl, rfl, rfl, rfl, rfl, rfl, rfl, rfl, rfl, rfl, rfl, rfl,
    rfl, rfl, rfl, fun _ => rfl⟩

/-- Claim C5: a session created by `create_conversation` has its pending
queue seeded with exactly the one synthetic session-configured event, the
first `next_event` call returns that event without touching the underlying
stream, and while the queue is non-empty `next_event` pops its front in FIFO
order leaving the stream untouched. -/
theorem session_seed_fifo (ser : Event → Except String String) (payload : String)
    (stream : List (Except CodexErr Event)) :
    (createSession payload stream).pending = [{ id := "", msg := .sessionConfigured payload }]
      ∧ nextEvent ser (createSession payload stream) =
          some ((ser { id := "", msg := .sessionConfigured payload }).map some,
            { pending := [], stream := stream })
      ∧ (∀ e rest strm, nextEvent ser { pending := e :: rest, stream := strm } =
          some ((ser e).map some, { pending := rest, stream := strm })) :=
  ⟨rfl, rfl, fun _ _ _ => rfl⟩

/-- Claim C6 (counterexample): a stream failure that is not the clean-closure
sentinel but whose rendered message happens to contain `"StreamClosed"` is
translated to the no-more-events outcome instead of an error, contradicting
the claim that only the sentinel maps to the distinguished outcome. -/
theorem next_event_stream_end_counterexample :
    nextEvent serDefault
        { pending := [], stream := [.error (.otherErr "wrapped StreamClosed error")] } =
      some (.ok none, { pending := [], stream := [] })
      ∧ CodexErr.otherErr "wrapped StreamClosed error" ≠ CodexErr.streamClosed := by
  exact ⟨by decide, by decide⟩

/-- Claim C6 (amended): with an empty pending queue, a stream failure is
translated to the no-more-events outcome exactly when its rendered message
contains the substring `"StreamClosed"` — which the sentinel's message does —
and any failure whose message avoids the substring is surfaced as an error
carrying that message. -/
theorem next_event_stream_end_corrected (ser : Event → Except String String)
    (err : CodexErr) (rest : List (Except CodexErr Event)) :
    (nextEvent ser { pending := [], stream := .error err :: rest } =
          some (.ok none, { pending := [], stream := rest })
        ↔ containsL "StreamClosed".data (errToString err).data = true)
      ∧ (containsL "StreamClosed".data (errToString err).data = false →
          nextEvent ser { pending := [], stream := .error err :: rest } =
            some (.error (errToString err), { pending := [], stream := rest }))
      ∧ nextEvent ser { pending := [], stream := .error .streamClosed :: rest } =
          some (.ok none, { pending := [], stream := rest }) := by
  have hsent : containsL "StreamClosed".data (errToString CodexErr.streamClosed).data = true := by
    decide
  refine ⟨?_, ?_, ?_⟩
  · rcases hc : containsL "StreamClosed".data (errToString err).data
    · simp [nextEvent, hc]
    · simp [nextEvent, hc]
  · intro hc
    simp [nextEvent, hc]
  · simp [nextEvent, hsent]

/-- Witness for the amended C6 theorem at a concrete non-matching failure. -/
theorem next_event_stream_end_witness :
    nextEvent serDefault { pending := [], stream := [.error (.otherErr "boom")] } =
      some (.error "boom", { pending := [], stream := [] }) :=
  (next_event_stream_end_corrected serDefault (.otherErr "boom") []).2.1 (by decide)

/-- Claim C2 (counterexample): a token with four dot-separated segments is
not rejected — the code reads the first three segments and ignores the rest,
so the account claim is still returned, contradicting the claim that any
segment count other than exactly three yields `none`. -/
theorem extract_account_id_claim_counterexample :
    (splitCh '.' tok4.data).length = 4
      ∧ extract_chatgpt_account_id tok4 = some "acc" := by
  exact ⟨by decide, by decide⟩

/-- Claim C2 (amended): `extract_chatgpt_account_id` returns the claim
string exactly when the token splits into at least three dot-separated
segments with the first three non-empty and the second segment decodes —
base64url without padding, JSON parse, nested string claim — segments past
the third being ignored; in every other case it returns `none` (the function
is total, modelling that the code never raises). -/
theorem extract_account_id_spec_equiv (token : String) :
    extract_chatgpt_account_id token = extractSpecModel token := by
  unfold extract_chatgpt_account_id extractSpecModel
  rcases h : splitCh '.' token.data with _ | ⟨h1, _ | ⟨p1, _ | ⟨s1, rest⟩⟩⟩
  · simp
  · simp
  · simp
  · have h3 : 3 ≤ (h1 :: p1 :: s1 :: rest).length := by
      simp [List.length_cons]
    by_cases hh : h1.isEmpty <;> by_cases hp : p1.isEmpty <;> by_cases hs : s1.isEmpty <;>
      simp [hh, hp, hs, h3]

/-- Claim C7 (counterexample): a URL with an `ssh://` scheme in front of a
bare `github.com/owner/repo` path is outside every shape the claim
enumerates — the claim-side parser rejects it — yet `parse_owner_repo`
accepts it, because the code first strips an `ssh://` prefix. -/
theorem parse_owner_repo_claim_counterexample :
    parse_owner_repo "ssh://github.com/openai/codex" = some ("openai", "codex")
      ∧ claimOwnerRepo "ssh://github.com/openai/codex" = none := by
  exact ⟨by decide, by decide⟩

/-- Claim C7 (amended): `parse_owner_repo` behaves as the ordered list of
claimed shape rules — the `@github.com:` shorthand, then the `https`,
`http`, `git` and bare `github.com/` prefixed forms with leading slashes
dropped and trailing `.git` suffixes stripped — applied after first removing
an optional `ssh://` scheme prefix from the trimmed URL; the two example
URLs yield `("openai", "codex")` and an unsupported host yields none. -/
theorem parse_owner_repo_spec_equiv (url : String) :
    (parse_owner_repo url =
        if "ssh://".data.isPrefixOf (trimChars url.data) then
          firstRuleHit shapeRules ((trimChars url.data).drop 6)
        else claimOwnerRepo url)
      ∧ parse_owner_repo "git@github.com:openai/codex.git" = some ("openai", "codex")
      ∧ parse_owner_repo "https://github.com/openai/codex" = some ("openai", "codex")
      ∧ parse_owner_repo "https://gitlab.com/openai/codex" = none := by
  have e1 : ("https://github.com/".data).length = 19 := by decide
  have e2 : ("http://github.com/".data).length = 18 := by decide
  have e3 : ("git://github.com/".data).length = 17 := by decide
  have e4 : ("github.com/".data).length = 11 := by decide
  have key : ∀ s : List Char,
      (match findSubSplit "@github.com:".data s with
        | some rest => ownerRepoFrom rest
        | none => parsePrefixLoop ghPrefixes s) = firstRuleHit shapeRules s := by
    intro s
    rcases hf : findSubSplit "@github.com:".data s with _ | rest
    · by_cases c1 : "https://github.com/".data.isPrefixOf s <;>
        by_cases c2 : "http://github.com/".data.isPrefixOf s <;>
        by_cases c3 : "git://github.com/".data.isPrefixOf s <;>
        by_cases c4 : "github.com/".data.isPrefixOf s <;>
        simp [parsePrefixLoop, ghPrefixes, firstRuleHit, shapeRules, hf, c1, c2, c3, c4,
          e1, e2, e3, e4]
    · simp [firstRuleHit, shapeRules, hf]
  refine ⟨?_, by decide, by decide, by decide⟩
  unfold parse_owner_repo claimOwnerRepo
  by_cases hssh : "ssh://".data.isPrefixOf (trimChars url.data) <;> simp [hssh, key]

/-- Claim C8 (counterexample): the append condition is a string-prefix
check, not a host check: the URL `https://chatgpt.com.evil.example`, whose
host is not a chat-frontend domain, still gets `/backend-api` appended,
while the claim-side host-based normalization leaves it unchanged. -/
theorem normalize_base_url_claim_counterexample :
    normalize_base_url "https://chatgpt.com.evil.example" =
        "https://chatgpt.com.evil.example/backend-api"
      ∧ claimNormalize "https://chatgpt.com.evil.example" = "https://chatgpt.com.evil.example"
      ∧ hostOf (dropTrailingSlashes ("https://chatgpt.com.evil.example").data) =
          some "chatgpt.com.evil.example".data
      ∧ normalize_base_url "https://chatgpt.com.evil.example" ≠
          claimNormalize "https://chatgpt.com.evil.example" := by
  exact ⟨by decide, by decide, by decide, by decide⟩

/-- Claim C8 (amended): `normalize_base_url` strips all trailing slashes and
appends `/backend-api` exactly when the slash-stripped string starts with
`https://chatgpt.com` or `https://chat.openai.com` and does not already
contain `/backend-api` anywhere in the string; otherwise the slash-stripped
string is returned unchanged. -/
theorem normalize_base_url_spec (s : String) :
    (normalize_base_url s = String.mk (dropTrailingSlashes s.data)
        ∨ normalize_base_url s = String.mk (dropTrailingSlashes s.data) ++ "/backend-api")
      ∧ (normalize_base_url s = String.mk (dropTrailingSlashes s.data) ++ "/backend-api"
          ↔ (("https://chatgpt.com".data.isPrefixOf (dropTrailingSlashes s.data)
              || "https://chat.openai.com".data.isPrefixOf (dropTrailingSlashes s.data))
            && !containsL "/backend-api".data (dropTrailingSlashes s.data)) = true) := by
  have h12 : ("/backend-api" : String).length = 12 := by decide
  have hne : String.mk (dropTrailingSlashes s.data)
      ≠ String.mk (dropTrailingSlashes s.data) ++ "/backend-api" := by
    intro hcontr
    have hl := congrArg String.length hcontr
    rw [String.length_append, h12] at hl
    omega
  rcases hcond : ("https://chatgpt.com".data.isPrefixOf (dropTrailingSlashes s.data)
      || "https://chat.openai.com".data.isPrefixOf (dropTrailingSlashes s.data))
      && !containsL "/backend-api".data (dropTrailingSlashes s.data)
  · constructor
    · left
      simp [normalize_base_url, hcond]
    · simp [normalize_base_url, hcond, hne]
  · constructor
    · right
      simp [normalize_base_url, hcond]
    · simp [normalize_base_url, hcond]

/-- `with_user_agent` never touches the bearer token. -/
theorem withUA_bearer (c : ClientState) (cfg : CloudTasksConfig) :
    (withUA c cfg).bearer = c.bearer := by
  unfold withUA
  cases cfg.user_agent <;> rfl

/-- `with_user_agent` never touches the account id. -/
theorem withUA_account (c : ClientState) (cfg : CloudTasksConfig) :
    (withUA c cfg).account = c.account := by
  unfold withUA
  cases cfg.user_agent <;> rfl

/-- Claim C1 (counterexample): with no explicit bearer token, a persisted
record holding the non-empty token `"file-token"` and a fallback manager
holding `"mgr-token"`, the resolved client carries the manager's token and
account id and the manager was consulted — contradicting the claim that a
successful persisted read means the manager is not consulted. -/
theorem create_backend_priority_claim_counterexample :
    create_backend cfgC1 wC1 =
        .ok (.httpBackend
          { bearer := some "mgr-token", account := some "mgr-acc", user_agent := none } true)
      ∧ wC1.auth_json "home" =
          some { tokens := some { access_token := "file-token", account_id := some "file-acc" } }
      ∧ ("mgr-token" : String) ≠ "file-token" := by
  exact ⟨by decide, by decide, by decide⟩

/-- Claim C1 (amended): an explicit bearer token in configuration wins
outright — the persisted record and the fallback manager are not consulted;
without one, a non-empty persisted token is attached, but the fallback
manager is still consulted afterwards: whenever the manager yields no usable
token — it is absent, its token is empty, or the read fails — the persisted
token stands, and when it yields a non-empty token that manager token
replaces whatever was attached before, with the manager's account id, when
available, replacing the account id as well. -/
theorem create_backend_priority_corrected (cfg : CloudTasksConfig) (w : AuthWorld) :
    (∀ token, cfg.mock.getD false = false → cfg.bearer_token = some token →
        create_backend cfg w =
          .ok (.httpBackend
            (withUA
              { bearer := some token
                account := cfg.chatgpt_account_id
                user_agent := none } cfg) false))
      ∧ (∀ h aj td, cfg.mock.getD false = false → cfg.bearer_token = none →
          cfg.codex_home = some h → w.metadata_ok h = true →
          w.auth_json h = some aj → aj.tokens = some td → td.access_token ≠ "" →
          managerTokenUnusable (w.manager_auth h) →
          ∃ c, create_backend cfg w = .ok (.httpBackend c true)
            ∧ c.bearer = some td.access_token)
      ∧ (∀ h ma tok, cfg.mock.getD false = false → cfg.bearer_token = none →
          cfg.codex_home = some h → w.metadata_ok h = true →
          w.manager_auth h = some ma → ma.token_result = .ok tok → tok ≠ "" →
          ∃ c, create_backend cfg w = .ok (.httpBackend c true) ∧ c.bearer = some tok
            ∧ (∀ acc, ma.account_id = some acc → c.account = some acc)) := by
  refine ⟨?_, ?_, ?_⟩
  · intro token hm hb
    simp only [create_backend, hm, hb]
    cases hacc : cfg.chatgpt_account_id <;> simp [hacc]
  · intro h aj td hm hb hh hmeta hauth htd hne hun
    simp only [create_backend, hm, hb, hh, hmeta, hauth, htd]
    simp only [Option.map_some', Option.getD_some, Option.some_bind]
    rw [if_pos hne]
    rcases hun with hnone | ⟨ma, hma, htok⟩
    · simp only [hnone]
      refine ⟨_, rfl, ?_⟩
      rw [withUA_bearer]
      rcases td.account_id.or (extract_chatgpt_account_id td.access_token) with _ | acc <;> rfl
    · simp only [hma]
      rcases htok with hok | ⟨e, herr⟩
      · simp only [hok]
        rw [if_neg (show ¬ (("" : String) ≠ "") from by simp)]
        refine ⟨_, rfl, ?_⟩
        rw [withUA_bearer]
        rcases ma.account_id with _ | acc <;>
          rcases td.account_id.or (extract_chatgpt_account_id td.access_token) with _ | acc2 <;>
          rfl
      · simp only [herr]
        refine ⟨_, rfl, ?_⟩
        rw [withUA_bearer]
        rcases ma.account_id with _ | acc <;>
          rcases td.account_id.or (extract_chatgpt_account_id td.access_token) with _ | acc2 <;>
          rfl
  · intro h ma tok hm hb hh hmeta hmgr hmtok hne
    simp only [create_backend, hm, hb, hh, hmeta, hmgr, hmtok]
    rw [if_pos hne]
    refine ⟨_, rfl, ?_, ?_⟩
    · rw [withUA_bearer]
      rcases ma.account_id.or ((some tok).bind fun t => extract_chatgpt_account_id t)
          with _ | acc <;> rfl
    · intro acc hacc
      rw [withUA_account, hacc]
      rfl

/-- Witness for the amended C1 theorem: explicit token wins; the persisted
token survives an absent manager; the manager token and account id replace
the persisted ones. -/
theorem create_backend_priority_witness :
    create_backend cfgC1a wC1 =
        .ok (.httpBackend
          { bearer := some "explicit-token", account := some "explicit-acc",
            user_agent := none } false)
      ∧ (∃ c, create_backend cfgC1 wC1b = .ok (.httpBackend c true)
          ∧ c.bearer = some "file-token")
      ∧ (∃ c, create_backend cfgC1 wC1 = .ok (.httpBackend c true)
          ∧ c.bearer = some "mgr-token" ∧ c.account = some "mgr-acc") := by
  refine ⟨?_, ?_, ?_⟩
  · have h := (create_backend_priority_corrected cfgC1a wC1).1 "explicit-token"
      (by decide) (by decide)
    rw [h]
    rfl
  · exact (create_backend_priority_corrected cfgC1 wC1b).2.1 "home"
      { tokens := some { access_token := "file-token", account_id := some "file-acc" } }
      { access_token := "file-token", account_id := some "file-acc" }
      (by decide) (by decide) (by decide) (by decide) (by decide) (by decide)
      (by decide) (Or.inl (by decide))
  · obtain ⟨c, hc, hb2, hacc⟩ := (create_backend_priority_corrected cfgC1 wC1).2.2 "home"
      { token_result := .ok "mgr-token", account_id := some "mgr-acc" } "mgr-token"
      (by decide) (by decide) (by decide) (by decide) (by decide) (by decide) (by decide)
    exact ⟨c, hc, hb2, hacc "mgr-acc" rfl⟩

/-! ## Accumulator-merge lemmas (claim C3) -/

/-- The update steps never change a row's id. -/
theorem updRow_id (r : EnvironmentRowNapi) (e : CodeEnvironment) : (updRow r e).id = r.id := by
  unfold updRow
  cases e.is_pinned <;> by_cases h : r.label = none <;> simp [h]

/-- The update steps never change a row's repo hint. -/
theorem updRow_hints (r : EnvironmentRowNapi) (e : CodeEnvironment) :
    (updRow r e).repo_hints = r.repo_hints := by
  unfold updRow
  cases e.is_pinned <;> by_cases h : r.label = none <;> simp [h]

/-- The label update fills the label only when it is absent. -/
theorem updRow_label (r : EnvironmentRowNapi) (e : CodeEnvironment) :
    (updRow r e).label = if r.label = none then e.label else r.label := by
  unfold updRow
  cases e.is_pinned <;> by_cases h : r.label = none <;> simp [h]

/-- The pinned update is exactly the `pinStep` join. -/
theorem updRow_pinned (r : EnvironmentRowNapi) (e : CodeEnvironment) :
    (updRow r e).is_pinned = pinStep r.is_pinned e.is_pinned := by
  unfold updRow pinStep
  cases e.is_pinned <;> by_cases h : r.label = none <;> simp [h]

/-- Lookup through an in-place update of one key. -/
theorem lookupFirst_map_upd (k : String) (e : CodeEnvironment) :
    ∀ (m : List (String × EnvironmentRowNapi)) (i : String),
    lookupFirst (m.map (fun p => if p.1 = k then (p.1, updRow p.2 e) else p)) i
      = if k = i then (lookupFirst m i).map (fun r => updRow r e) else lookupFirst m i := by
  intro m
  induction m with
  | nil =>
    intro i
    by_cases h : k = i <;> simp [lookupFirst, h]
  | cons p rest ih =>
    intro i
    obtain ⟨k', v⟩ := p
    rw [List.map_cons]
    by_cases h1 : k' = k
    · subst h1
      rw [show (if (k', v).1 = k' then ((k', v).1, updRow (k', v).2 e) else (k', v))
          = (k', updRow v e) from by simp]
      by_cases h2 : k' = i
      · subst h2
        simp [lookupFirst]
      · simp [lookupFirst, h2, ih]
    · rw [show (if (k', v).1 = k then ((k', v).1, updRow (k', v).2 e) else (k', v))
          = (k', v) from by simp [h1]]
      by_cases h2 : k' = i
      · subst h2
        have h3 : ¬ k = k' := fun hc => h1 hc.symm
        simp [lookupFirst, h3]
      · simp [lookupFirst, h2, ih]

/-- Net effect of one merge operation on the looked-up row of any id. -/
theorem lookupFirst_applyOp (m : List (String × EnvironmentRowNapi)) (op : MergeOp) (i : String) :
    lookupFirst (applyOp m op) i =
      if op.env.id = i then some (stepRow (lookupFirst m i) op) else lookupFirst m i := by
  unfold applyOp
  cases hm : lookupFirst m op.env.id with
  | none =>
    dsimp only
    by_cases h : op.env.id = i
    · subst h
      simp [lookupFirst, hm, stepRow]
    · simp [lookupFirst, h]
  | some r =>
    dsimp only
    rw [lookupFirst_map_upd]
    by_cases h : op.env.id = i
    · subst h
      simp [hm, stepRow]
    · simp [h]

/-- Lookup after the whole merge run equals a per-id fold over the
operations that concern that id. -/
theorem lookupFirst_foldl (i : String) :
    ∀ (ops : List MergeOp) (m : List (String × EnvironmentRowNapi)),
    lookupFirst (ops.foldl applyOp m) i
      = (opsFor ops i).foldl (fun cur op => some (stepRow cur op)) (lookupFirst m i) := by
  intro ops
  induction ops with
  | nil =>
    intro m
    simp [opsFor]
  | cons op rest ih =>
    intro m
    rw [List.foldl_cons, ih]
    unfold opsFor
    rw [List.filter_cons]
    by_cases h : op.env.id = i
    · have hb : (op.env.id == i) = true := beq_iff_eq.mpr h
      simp only [hb, if_true]
      rw [List.foldl_cons, lookupFirst_applyOp, if_pos h]
    · have hb : (op.env.id == i) = false := by simp [h]
      simp only [hb, Bool.false_eq_true, if_false]
      rw [lookupFirst_applyOp, if_neg h]

/-- A per-id fold started from an existing row is the plain row fold. -/
theorem foldl_step_some (l : List MergeOp) :
    ∀ r, l.foldl (fun cur op => some (stepRow cur op)) (some r) = some (rowFold r l) := by
  induction l with
  | nil =>
    intro r
    simp [rowFold]
  | cons op rest ih =>
    intro r
    rw [List.foldl_cons]
    have h : stepRow (some r) op = updRow r op.env := rfl
    rw [h, ih]
    rfl

/-- A row fold keeps the id. -/
theorem rowFold_id (l : List MergeOp) : ∀ r, (rowFold r l).id = r.id := by
  induction l with
  | nil =>
    intro r
    rfl
  | cons op rest ih =>
    intro r
    have h : rowFold r (op :: rest) = rowFold (updRow r op.env) rest := rfl
    rw [h, ih, updRow_id]

/-- A row fold keeps the repo hint. -/
theorem rowFold_hints (l : List MergeOp) : ∀ r, (rowFold r l).repo_hints = r.repo_hints := by
  induction l with
  | nil =>
    intro r
    rfl
  | cons op rest ih =>
    intro r
    have h : rowFold r (op :: rest) = rowFold (updRow r op.env) rest := rfl
    rw [h, ih, updRow_hints]

/-- The label after a row fold is the first label supplied, current one first. -/
theorem rowFold_label (l : List MergeOp) :
    ∀ r, (rowFold r l).label = firstSomeL (r.label :: l.map (fun op => op.env.label)) := by
  induction l with
  | nil =>
    intro r
    cases hl : r.label <;> simp [rowFold, firstSomeL, hl]
  | cons op rest ih =>
    intro r
    have h : rowFold r (op :: rest) = rowFold (updRow r op.env) rest := rfl
    rw [h, ih, updRow_label, List.map_cons]
    by_cases hr : r.label = none
    · simp [hr, firstSomeL]
    · obtain ⟨x, hx⟩ := Option.ne_none_iff_exists'.mp hr
      simp [hx, firstSomeL]

/-- The pinned flag after a row fold is the `pinStep` fold of the reports. -/
theorem rowFold_pinned (l : List MergeOp) :
    ∀ r, (rowFold r l).is_pinned
      = (l.map (fun op => op.env.is_pinned)).foldl pinStep r.is_pinned := by
  induction l with
  | nil =>
    intro r
    rfl
  | cons op rest ih =>
    intro r
    have h : rowFold r (op :: rest) = rowFold (updRow r op.env) rest := rfl
    rw [h, ih, updRow_pinned, List.map_cons, List.foldl_cons]

/-- Per-id characterization of the accumulator after the merge run. -/
theorem lookup_runMerge (ops : List MergeOp) (i : String) :
    lookupFirst (runMerge ops) i =
      match opsFor ops i with
      | [] => none
      | op0 :: rest => some (rowFold (updRow (freshRow op0) op0.env) rest) := by
  unfold runMerge
  rw [lookupFirst_foldl]
  have hnil : lookupFirst [] i = none := rfl
  rw [hnil]
  cases hops : opsFor ops i with
  | nil => rfl
  | cons op0 rest =>
    rw [List.foldl_cons]
    have h0 : stepRow none op0 = updRow (freshRow op0) op0.env := rfl
    rw [h0, foldl_step_some]

/-- Once the pin fold reaches `some true` it stays there. -/
theorem foldl_pinStep_true (l : List (Option Bool)) : l.foldl pinStep (some true) = some true := by
  induction l with
  | nil => rfl
  | cons a rest ih =>
    rw [List.foldl_cons]
    have h : pinStep (some true) a = some true := by
      cases a <;> simp [pinStep]
    rw [h, ih]

/-- A reported `some true` forces the pin fold to `some true` from any start. -/
theorem foldl_pinStep_mem_true (l : List (Option Bool)) (hmem : some true ∈ l) :
    ∀ init, l.foldl pinStep init = some true := by
  induction l with
  | nil => cases hmem
  | cons a rest ih =>
    intro init
    rw [List.foldl_cons]
    rcases List.mem_cons.mp hmem with h | h
    · rw [← h]
      have hs : pinStep init (some true) = some true := by
        cases init <;> simp [pinStep]
      rw [hs, foldl_pinStep_true]
    · exact ih h (pinStep init a)

/-- A source reporting `pinned = true` forces the predicted pin to true. -/
theorem pinSpec_true_of_mem (l : List MergeOp) (op : MergeOp) (hmem : op ∈ l)
    (hpin : op.env.is_pinned = some true) : pinSpec l = some true := by
  unfold pinSpec
  apply foldl_pinStep_mem_true
  exact List.mem_map.mpr ⟨op, hmem, by simpa using hpin⟩

/-- A lookup misses exactly when the key is not among the stored keys. -/
theorem lookupFirst_none_iff (m : List (String × EnvironmentRowNapi)) (k : String) :
    lookupFirst m k = none ↔ k ∉ m.map Prod.fst := by
  induction m with
  | nil => simp [lookupFirst]
  | cons p rest ih =>
    obtain ⟨k', v⟩ := p
    by_cases h : k' = k
    · subst h
      simp [lookupFirst]
    · have h' : ¬ k = k' := fun hc => h hc.symm
      simp [lookupFirst, h, h', ih]

/-- The in-place update leaves the stored keys unchanged. -/
theorem map_fst_upd (k : String) (e : CodeEnvironment)
    (m : List (String × EnvironmentRowNapi)) :
    (m.map (fun p => if p.1 = k then (p.1, updRow p.2 e) else p)).map Prod.fst
      = m.map Prod.fst := by
  induction m with
  | nil => rfl
  | cons p rest ih =>
    by_cases h : p.1 = k <;> simp [h, ih]

/-- Keys after one merge operation: a fresh id is prepended, otherwise the
keys are unchanged. -/
theorem applyOp_keys (m : List (String × EnvironmentRowNapi)) (op : MergeOp) :
    (applyOp m op).map Prod.fst =
      if lookupFirst m op.env.id = none then op.env.id :: m.map Prod.fst
      else m.map Prod.fst := by
  unfold applyOp
  cases hm : lookupFirst m op.env.id with
  | none => simp [hm]
  | some r =>
    simp only [hm]
    rw [map_fst_upd]
    simp

/-- The merge run keeps the stored keys free of duplicates. -/
theorem keys_nodup_foldl :
    ∀ (ops : List MergeOp) (m : List (String × EnvironmentRowNapi)),
    (m.map Prod.fst).Nodup → ((ops.foldl applyOp m).map Prod.fst).Nodup := by
  intro ops
  induction ops with
  | nil =>
    intro m h
    exact h
  | cons op rest ih =>
    intro m h
    rw [List.foldl_cons]
    apply ih
    rw [applyOp_keys]
    cases hm : lookupFirst m op.env.id with
    | none =>
      rw [if_pos rfl]
      exact List.Nodup.cons (lookupFirst_none_iff m op.env.id |>.mp hm) h
    | some r =>
      rw [if_neg (fun hc => Option.noConfusion hc)]
      exact h

/-- Per-id pinned characterization of the merge run. -/
theorem pinned_char (ops : List MergeOp) (i : String) :
    pinnedAt (runMerge ops) i = pinSpec (opsFor ops i) := by
  unfold pinnedAt
  rw [lookup_runMerge]
  cases hops : opsFor ops i with
  | nil => rfl
  | cons op0 rest =>
    simp only [Option.some_bind]
    rw [rowFold_pinned, updRow_pinned]
    unfold pinSpec
    rw [List.map_cons, List.foldl_cons]
    have h : pinStep (freshRow op0).is_pinned op0.env.is_pinned
        = pinStep none op0.env.is_pinned := by
      cases hp : op0.env.is_pinned <;> simp [pinStep, freshRow, hp]
    rw [h]

/-- Per-id label characterization of the merge run: first supplied label wins. -/
theorem label_char (ops : List MergeOp) (i : String) :
    labelAt (runMerge ops) i = firstSomeL ((opsFor ops i).map (fun op => op.env.label)) := by
  unfold labelAt
  rw [lookup_runMerge]
  cases hops : opsFor ops i with
  | nil => rfl
  | cons op0 rest =>
    simp only [Option.some_bind]
    rw [rowFold_label, List.map_cons]
    have h : (updRow (freshRow op0) op0.env).label = op0.env.label := by
      rw [updRow_label]
      cases hl : op0.env.label <;> simp [freshRow, hl]
    rw [h]

/-- Per-id hint characterization: the hint is the first-inserting source's. -/
theorem hint_char (ops : List MergeOp) (i : String) :
    hintAt (runMerge ops) i = ((opsFor ops i).head?).bind (fun op => hintOf op.src) := by
  unfold hintAt
  rw [lookup_runMerge]
  cases hops : opsFor ops i with
  | nil => rfl
  | cons op0 rest =>
    simp only [Option.some_bind, List.head?_cons]
    rw [rowFold_hints, updRow_hints]
    rfl

/-- Claim C3: over every sequence of merged rows, the accumulator keyed by
id keeps at most one row per id; a `pinned = true` report from any source
makes and keeps the merged pin true; the label is set by the first source
supplying one and never overwritten; and the repo hint is exactly what the
first-inserting source wrote — `some` for a per-repository query, never set
or overwritten by the global query or later merges. -/
theorem merge_accumulator_invariants (ops : List MergeOp) (i : String) :
    ((runMerge ops).map Prod.fst).Nodup
      ∧ (∀ op, op ∈ ops → op.env.id = i → op.env.is_pinned = some true →
          pinnedAt (runMerge ops) i = some true)
      ∧ labelAt (runMerge ops) i = firstSomeL ((opsFor ops i).map (fun op => op.env.label))
      ∧ hintAt (runMerge ops) i = ((opsFor ops i).head?).bind (fun op => hintOf op.src) := by
  refine ⟨keys_nodup_foldl ops [] (by simp), ?_, label_char ops i, hint_char ops i⟩
  intro op hmem hid hpin
  rw [pinned_char]
  apply pinSpec_true_of_mem _ op _ hpin
  unfold opsFor
  exact List.mem_filter.mpr ⟨hmem, by simp [hid]⟩

/-- Witness for C3 at a concrete two-source merge: the global query reports
`pinned = false`, the per-repository query reports `pinned = true` and a
label, and the merged row is pinned with that label and no repo hint
(the global query inserted the id first). -/
theorem merge_accumulator_invariants_witness :
    pinnedAt (runMerge opsW) "e" = some true
      ∧ labelAt (runMerge opsW) "e" = some "L"
      ∧ hintAt (runMerge opsW) "e" = none := by
  refine ⟨?_, by decide, by decide⟩
  exact (merge_accumulator_invariants opsW "e").2.1
    { src := .perRepo "o/r", env := { id := "e", label := some "L", is_pinned := some true } }
    (by decide) rfl rfl

/-! ## Comparator lemmas (claim C4) -/

/-- `natCmp` answers `lt` exactly on smaller inputs. -/
theorem natCmp_eq_lt (m n : Nat) : natCmp m n = .lt ↔ m < n := by
  unfold natCmp
  by_cases h1 : m < n
  · simp [h1]
  · by_cases h2 : n < m <;> simp [h1, h2]

/-- `natCmp` answers `gt` exactly on larger inputs. -/
theorem natCmp_eq_gt (m n : Nat) : natCmp m n = .gt ↔ n < m := by
  unfold natCmp
  by_cases h1 : m < n
  · simp [h1]
    omega
  · by_cases h2 : n < m <;> simp [h1, h2]

/-- `natCmp` answers `eq` exactly on equal inputs. -/
theorem natCmp_eq_eq (m n : Nat) : natCmp m n = .eq ↔ m = n := by
  unfold natCmp
  by_cases h1 : m < n
  · simp [h1]
    omega
  · by_cases h2 : n < m <;> simp [h1, h2] <;> omega

/-- Characters with equal code points are equal. -/
theorem char_toNat_inj {a b : Char} (h : a.toNat = b.toNat) : a = b := by
  cases a
  cases b
  simp only [Char.toNat] at h
  congr 1
  exact UInt32.toNat.inj h

/-- `lexCmp` answers `eq` exactly on equal lists. -/
theorem lexCmp_eq_eq : ∀ (xs ys : List Char), lexCmp xs ys = .eq ↔ xs = ys := by
  intro xs
  induction xs with
  | nil =>
    intro ys
    cases ys <;> simp [lexCmp]
  | cons a l1 ih =>
    intro ys
    cases ys with
    | nil => simp [lexCmp]
    | cons b l2 =>
      unfold lexCmp
      cases hc : natCmp a.toNat b.toNat with
      | eq =>
        have hab : a = b := char_toNat_inj ((natCmp_eq_eq _ _).mp hc)
        subst hab
        simp [ih]
      | lt =>
        have hne : ¬ a = b := by
          intro hab
          subst hab
          have := (natCmp_eq_lt _ _).mp hc
          omega
        simp [hne]
      | gt =>
        have hne : ¬ a = b := by
          intro hab
          subst hab
          have := (natCmp_eq_gt _ _).mp hc
          omega
        simp [hne]

/-- `lexCmp` with swapped arguments is the swapped ordering. -/
theorem lexCmp_swap : ∀ (xs ys : List Char), lexCmp ys xs = (lexCmp xs ys).swap := by
  intro xs
  induction xs with
  | nil =>
    intro ys
    cases ys <;> rfl
  | cons a l1 ih =>
    intro ys
    cases ys with
    | nil => rfl
    | cons b l2 =>
      unfold lexCmp
      cases hc : natCmp a.toNat b.toNat with
      | eq =>
        have h2 : natCmp b.toNat a.toNat = .eq := by
          rw [natCmp_eq_eq]
          exact ((natCmp_eq_eq _ _).mp hc).symm
        rw [h2]
        simp [ih]
      | lt =>
        have h2 : natCmp b.toNat a.toNat = .gt := by
          rw [natCmp_eq_gt]
          exact (natCmp_eq_lt _ _).mp hc
        rw [h2]
        rfl
      | gt =>
        have h2 : natCmp b.toNat a.toNat = .lt := by
          rw [natCmp_eq_lt]
          exact (natCmp_eq_gt _ _).mp hc
        rw [h2]
        rfl

/-- Transitivity of the non-strict order induced by `lexCmp`. -/
theorem lexCmp_trans_ne_gt : ∀ (xs ys zs : List Char),
    lexCmp xs ys ≠ .gt → lexCmp ys zs ≠ .gt → lexCmp xs zs ≠ .gt := by
  intro xs
  induction xs with
  | nil =>
    intro ys zs _ _
    cases zs <;> simp [lexCmp]
  | cons a l1 ih =>
    intro ys zs h1 h2
    cases ys with
    | nil => exact absurd rfl h1
    | cons b l2 =>
      cases zs with
      | nil => exact absurd rfl h2
      | cons c l3 =>
        unfold lexCmp at h1 h2 ⊢
        cases hab : natCmp a.toNat b.toNat with
        | gt =>
          rw [hab] at h1
          exact absurd rfl h1
        | lt =>
          cases hbc : natCmp b.toNat c.toNat with
          | gt =>
            rw [hbc] at h2
            exact absurd rfl h2
          | lt =>
            have hac : natCmp a.toNat c.toNat = .lt := by
              rw [natCmp_eq_lt]
              have hx := (natCmp_eq_lt _ _).mp hab
              have hy := (natCmp_eq_lt _ _).mp hbc
              omega
            rw [hac]
            simp
          | eq =>
            have hac : natCmp a.toNat c.toNat = .lt := by
              rw [natCmp_eq_lt]
              have hx := (natCmp_eq_lt _ _).mp hab
              have hy := (natCmp_eq_eq _ _).mp hbc
              omega
            rw [hac]
            simp
        | eq =>
          rw [hab] at h1
          cases hbc : natCmp b.toNat c.toNat with
          | gt =>
            rw [hbc] at h2
            exact absurd rfl h2
          | lt =>
            have hac : natCmp a.toNat c.toNat = .lt := by
              rw [natCmp_eq_lt]
              have hx := (natCmp_eq_eq _ _).mp hab
              have hy := (natCmp_eq_lt _ _).mp hbc
              omega
            rw [hac]
            simp
          | eq =>
            have hac : natCmp a.toNat c.toNat = .eq := by
              rw [natCmp_eq_eq]
              have hx := (natCmp_eq_eq _ _).mp hab
              have hy := (natCmp_eq_eq _ _).mp hbc
              omega
            rw [hac]
            rw [hbc] at h2
            exact ih l2 l3 h1 h2

/-- Strict transitivity of `lexCmp`. -/
theorem lexCmp_lt_trans (la lb lc : List Char) (h1 : lexCmp la lb = .lt)
    (h2 : lexCmp lb lc = .lt) : lexCmp la lc = .lt := by
  have hng : lexCmp la lc ≠ .gt :=
    lexCmp_trans_ne_gt la lb lc (by simp [h1]) (by simp [h2])
  cases hc : lexCmp la lc with
  | lt => rfl
  | gt => exact absurd hc hng
  | eq =>
    have hac := (lexCmp_eq_eq la lc).mp hc
    subst hac
    rw [lexCmp_swap] at h2
    rw [h1] at h2
    exact absurd h2 (by decide)

/-- `boolCmp` answers `eq` exactly on equal booleans. -/
theorem boolCmp_eq_eq (x y : Bool) : boolCmp x y = .eq ↔ x = y := by
  cases x <;> cases y <;> decide

/-- `boolCmp` with swapped arguments is the swapped ordering. -/
theorem boolCmp_swap (x y : Bool) : boolCmp y x = (boolCmp x y).swap := by
  cases x <;> cases y <;> rfl

/-- The row comparator is the three-layer ordering chain. -/
theorem cmpRow_eq_chain3 (low : String → List Char) (a b : EnvironmentRowNapi) :
    cmpRow low a b = chain3 (boolCmp (b.is_pinned.getD false) (a.is_pinned.getD false))
      (lexCmp (lowerLabel low a.label) (lowerLabel low b.label))
      (lexCmp a.id.data b.id.data) := by
  unfold cmpRow chain3
  dsimp only
  cases boolCmp (b.is_pinned.getD false) (a.is_pinned.getD false) <;>
    cases lexCmp (lowerLabel low a.label) (lowerLabel low b.label) <;> rfl

/-- `chain3` is not `gt` exactly when some layer decides `lt` with all
earlier layers tied, or everything up to the last layer is tied. -/
theorem chain3_ne_gt (o1 o2 o3 : Ordering) :
    chain3 o1 o2 o3 ≠ .gt ↔
      o1 = .lt ∨ (o1 = .eq ∧ (o2 = .lt ∨ (o2 = .eq ∧ o3 ≠ .gt))) := by
  cases o1 <;> cases o2 <;> cases o3 <;> decide

/-- `chain3` is `eq` exactly when every layer ties. -/
theorem chain3_eq_eq (o1 o2 o3 : Ordering) :
    chain3 o1 o2 o3 = .eq ↔ o1 = .eq ∧ o2 = .eq ∧ o3 = .eq := by
  cases o1 <;> cases o2 <;> cases o3 <;> decide

/-- `chain3` commutes with swapping every layer. -/
theorem chain3_swap (o1 o2 o3 : Ordering) :
    chain3 o1.swap o2.swap o3.swap = (chain3 o1 o2 o3).swap := by
  cases o1 <;> cases o2 <;> cases o3 <;> rfl

/-- The row comparator with swapped arguments is the swapped ordering. -/
theorem cmpRow_swap (low : String → List Char) (a b : EnvironmentRowNapi) :
    cmpRow low b a = (cmpRow low a b).swap := by
  rw [cmpRow_eq_chain3 low b a, cmpRow_eq_chain3 low a b]
  rw [boolCmp_swap, lexCmp_swap (lowerLabel low a.label) (lowerLabel low b.label),
    lexCmp_swap a.id.data b.id.data, chain3_swap]

/-- `RowLe` is reflexive. -/
theorem rowLe_refl (low : String → List Char) (a : EnvironmentRowNapi) : RowLe low a a := by
  unfold RowLe
  rw [cmpRow_eq_chain3, chain3_ne_gt]
  right
  exact ⟨(boolCmp_eq_eq _ _).mpr rfl,
    Or.inr ⟨(lexCmp_eq_eq _ _).mpr rfl, by rw [(lexCmp_eq_eq _ _).mpr rfl]; decide⟩⟩

/-- Transitivity of the two inner comparator layers. -/
theorem lex2_trans (la lb lc ia ib ic : List Char)
    (h1 : lexCmp la lb = .lt ∨ (lexCmp la lb = .eq ∧ lexCmp ia ib ≠ .gt))
    (h2 : lexCmp lb lc = .lt ∨ (lexCmp lb lc = .eq ∧ lexCmp ib ic ≠ .gt)) :
    lexCmp la lc = .lt ∨ (lexCmp la lc = .eq ∧ lexCmp ia ic ≠ .gt) := by
  rcases h1 with h1 | ⟨h1e, h1i⟩
  · rcases h2 with h2 | ⟨h2e, _⟩
    · exact Or.inl (lexCmp_lt_trans la lb lc h1 h2)
    · have hbc := (lexCmp_eq_eq lb lc).mp h2e
      rw [← hbc]
      exact Or.inl h1
  · have hab := (lexCmp_eq_eq la lb).mp h1e
    rcases h2 with h2 | ⟨h2e, h2i⟩
    · rw [hab]
      exact Or.inl h2
    · have hbc := (lexCmp_eq_eq lb lc).mp h2e
      right
      constructor
      · rw [hab, hbc]
        exact (lexCmp_eq_eq lc lc).mpr rfl
      · exact lexCmp_trans_ne_gt ia ib ic h1i h2i

/-- Transitivity of the descending boolean layer over any inner layer. -/
theorem chain2_descBool_trans (x y z : Bool) (P Q R : Prop)
    (hPQR : P → Q → R)
    (h1 : boolCmp y x = .lt ∨ (boolCmp y x = .eq ∧ P))
    (h2 : boolCmp z y = .lt ∨ (boolCmp z y = .eq ∧ Q)) :
    boolCmp z x = .lt ∨ (boolCmp z x = .eq ∧ R) := by
  rcases h1 with h1 | ⟨h1e, hp⟩
  · rcases h2 with h2 | ⟨h2e, _⟩
    · left
      revert h1 h2
      cases x <;> cases y <;> cases z <;> decide
    · have hzy : z = y := (boolCmp_eq_eq z y).mp h2e
      rw [hzy]
      exact Or.inl h1
  · have hyx : y = x := (boolCmp_eq_eq y x).mp h1e
    rcases h2 with h2 | ⟨h2e, hq⟩
    · rw [← hyx]
      exact Or.inl h2
    · have hzy : z = y := (boolCmp_eq_eq z y).mp h2e
      right
      constructor
      · rw [hzy, hyx]
        exact (boolCmp_eq_eq x x).mpr rfl
      · exact hPQR hp hq

/-- `RowLe` is total. -/
theorem rowLe_total (low : String → List Char) (a b : EnvironmentRowNapi) :
    RowLe low a b ∨ RowLe low b a := by
  unfold RowLe
  cases h : cmpRow low a b with
  | lt =>
    left
    simp [h]
  | eq =>
    left
    simp [h]
  | gt =>
    right
    rw [cmpRow_swap, h]
    decide

/-- `RowLe` is transitive. -/
theorem rowLe_trans (low : String → List Char) (a b c : EnvironmentRowNapi) :
    RowLe low a b → RowLe low b c → RowLe low a c := by
  unfold RowLe
  rw [cmpRow_eq_chain3 low a b, cmpRow_eq_chain3 low b c, cmpRow_eq_chain3 low a c,
    chain3_ne_gt, chain3_ne_gt, chain3_ne_gt]
  exact chain2_descBool_trans (a.is_pinned.getD false) (b.is_pinned.getD false)
    (c.is_pinned.getD false) _ _ _
    (lex2_trans (lowerLabel low a.label) (lowerLabel low b.label) (lowerLabel low c.label)
      a.id.data b.id.data c.id.data)

instance (low : String → List Char) : IsTotal EnvironmentRowNapi (RowLe low) :=
  ⟨rowLe_total low⟩

instance (low : String → List Char) : IsTrans EnvironmentRowNapi (RowLe low) :=
  ⟨fun a b c => rowLe_trans low a b c⟩

/-- Rows below each other in the order share their id. -/
theorem rowLe_antisymm_id (low : String → List Char) (a b : EnvironmentRowNapi)
    (h1 : RowLe low a b) (h2 : RowLe low b a) : a.id = b.id := by
  unfold RowLe at h1 h2
  cases hc : cmpRow low a b with
  | gt => exact absurd hc h1
  | lt =>
    rw [cmpRow_swap, hc] at h2
    exact absurd rfl h2
  | eq =>
    rw [cmpRow_eq_chain3] at hc
    have h3 := ((chain3_eq_eq _ _ _).mp hc).2.2
    exact String.ext ((lexCmp_eq_eq _ _).mp h3)

/-- Two sorted permutations of each other with duplicate-free ids coincide. -/
theorem sorted_unique_by_ids (low : String → List Char) :
    ∀ (l1 l2 : List EnvironmentRowNapi), l1.Perm l2 →
      l1.Pairwise (RowLe low) → l2.Pairwise (RowLe low) →
      (l1.map (fun r => r.id)).Nodup → l1 = l2 := by
  intro l1
  induction l1 with
  | nil =>
    intro l2 hp _ _ _
    exact hp.nil_eq
  | cons a t1 ih =>
    intro l2 hp hs1 hs2 hnd
    cases l2 with
    | nil =>
      have hl := hp.length_eq
      simp at hl
    | cons b t2 =>
      have hbmem : b ∈ a :: t1 := hp.symm.subset (List.mem_cons_self b t2)
      have hamem : a ∈ b :: t2 := hp.subset (List.mem_cons_self a t1)
      have hle_ab : RowLe low a b := by
        rcases List.mem_cons.mp hbmem with h | h
        · rw [h]
          exact rowLe_refl low a
        · exact (List.pairwise_cons.mp hs1).1 b h
      have hle_ba : RowLe low b a := by
        rcases List.mem_cons.mp hamem with h | h
        · rw [h]
          exact rowLe_refl low b
        · exact (List.pairwise_cons.mp hs2).1 a h
      have hid := rowLe_antisymm_id low a b hle_ab hle_ba
      have hab : a = b := by
        rcases List.mem_cons.mp hbmem with h | h
        · exact h.symm
        · exfalso
          have hin : a.id ∈ t1.map (fun r => r.id) := by
            rw [hid]
            exact List.mem_map_of_mem _ h
          rw [List.map_cons] at hnd
          exact (List.nodup_cons.mp hnd).1 hin
      subst hab
      have hp' : t1.Perm t2 := (List.perm_cons a).mp hp
      have hnd' : (t1.map (fun r => r.id)).Nodup := by
        rw [List.map_cons] at hnd
        exact (List.nodup_cons.mp hnd).2
      rw [ih t2 hp' (List.pairwise_cons.mp hs1).2 (List.pairwise_cons.mp hs2).2 hnd']

/-- Claim C4: for every lowercase mapping `low` modelling the external
`str::to_lowercase`, the final environment list is sorted by the translated
comparator — pinned descending (absent as false), then the `low`-cased label
ascending (absent as empty), then id ascending — which is a total,
transitive order; the output is a permutation of the accumulator rows, it is
independent of the accumulator's iteration order whenever ids are unique
(determinism), and — whenever `low` maps the three example labels the way
Unicode lowercasing does — the spec's example rows sort to `[a, c, b]`. -/
theorem environment_sort_spec (low : String → List Char) :
    (∀ rows, (sortRows low rows).Perm rows ∧ List.Sorted (RowLe low) (sortRows low rows))
      ∧ (∀ a b, RowLe low a b ∨ RowLe low b a)
      ∧ (∀ a b c, RowLe low a b → RowLe low b c → RowLe low a c)
      ∧ (∀ l1 l2, l1.Perm l2 → (l1.map (fun r => r.id)).Nodup →
          sortRows low l1 = sortRows low l2)
      ∧ (low "alpha" = "alpha".data → low "Zed" = "zed".data → low "Alpha" = "alpha".data →
          sortRows low [exRowB, exRowA, exRowC] = [exRowA, exRowC, exRowB]) := by
  refine ⟨fun rows => ⟨List.perm_insertionSort (RowLe low) rows,
      List.sorted_insertionSort (RowLe low) rows⟩,
    rowLe_total low, rowLe_trans low, ?_, ?_⟩
  · intro l1 l2 hp hnd
    have hperm : (sortRows low l1).Perm (sortRows low l2) :=
      (List.perm_insertionSort (RowLe low) l1).trans
        (hp.trans (List.perm_insertionSort (RowLe low) l2).symm)
    have hnd1 : ((sortRows low l1).map (fun r => r.id)).Nodup :=
      (((List.perm_insertionSort (RowLe low) l1).map (fun r => r.id)).nodup_iff).mpr hnd
    exact sorted_unique_by_ids low (sortRows low l1) (sortRows low l2) hperm
      (List.sorted_insertionSort (RowLe low) l1) (List.sorted_insertionSort (RowLe low) l2)
      hnd1
  · intro hAlphaLow hZed hAlpha
    have c1 : cmpRow low exRowA exRowC = .lt := by
      rw [cmpRow_eq_chain3]
      rw [show boolCmp (exRowC.is_pinned.getD false) (exRowA.is_pinned.getD false) = .lt
        from by decide]
      rfl
    have h1 : RowLe low exRowA exRowC := by
      unfold RowLe
      rw [c1]
      decide
    have c2 : cmpRow low exRowB exRowA = .gt := by
      rw [cmpRow_eq_chain3]
      rw [show boolCmp (exRowA.is_pinned.getD false) (exRowB.is_pinned.getD false) = .gt
        from by decide]
      rfl
    have h2 : ¬ RowLe low exRowB exRowA := by
      unfold RowLe
      rw [c2]
      decide
    have hl3 : lexCmp (lowerLabel low exRowB.label) (lowerLabel low exRowC.label) = .gt := by
      unfold lowerLabel
      rw [show exRowB.label.getD "" = "Zed" from rfl,
        show exRowC.label.getD "" = "Alpha" from rfl, hZed, hAlpha]
      decide
    have c3 : cmpRow low exRowB exRowC = .gt := by
      rw [cmpRow_eq_chain3]
      rw [show boolCmp (exRowC.is_pinned.getD false) (exRowB.is_pinned.getD false) = .eq
        from by decide]
      rw [hl3]
      rfl
    have h3 : ¬ RowLe low exRowB exRowC := by
      unfold RowLe
      rw [c3]
      decide
    simp [sortRows, List.insertionSort, List.orderedInsert, h1, h2, h3]

/-- Witness for C4 at the ASCII instantiation of the lowercase mapping: the
spec's example sorts to `[a, c, b]` and sorting is input-order independent. -/
theorem environment_sort_spec_witness :
    sortRows asciiToLowerData [exRowB, exRowA, exRowC] = [exRowA, exRowC, exRowB]
      ∧ sortRows asciiToLowerData [exRowA, exRowB] = sortRows asciiToLowerData [exRowB, exRowA] :=
  ⟨(environment_sort_spec asciiToLowerData).2.2.2.2 (by decide) (by decide) (by decide),
    (environment_sort_spec asciiToLowerData).2.2.2.1 [exRowA, exRowB] [exRowB, exRowA]
      (List.Perm.swap exRowB exRowA []) (by decide)⟩

end CodexNapi
